import Mathlib

/-!
Verification of the CompShare asynchronous compression pipeline.

The frontend code (Next.js hooks under `frontend/`) is embedded directly;
the backend (FastAPI worker, WebSocket correlation registry, submission
endpoint) is not part of the sources at hand, so those components are
modelled from the specification, with each such definition marked
`Modelled from the spec:`.
-/

namespace CompShare

/-! ## Frontend: `utils/constants.js` -/

/-- Embeds `isTokenExpired` from `frontend/utils/constants.js`.  The JS
decoding step `JSON.parse(atob(token.split('.')[1]))` is abstracted by a
`decode` parameter: `none` means the try-block threw (bad base64 / bad
JSON), `some none` means the payload parsed but carries no `exp` field
(in JS `payload.exp * 1000` is then `NaN` and `Date.now() >= NaN` is
`false`), and `some (some e)` is a payload with `exp = e` (seconds).
`now` is `Date.now()` in milliseconds.  A `none` token models
null/undefined, and the empty string is falsy in JS, so `!token` also
fires for it.  The Lean function is total by construction, mirroring the
catch-all `try`/`catch` that makes the JS function total. -/
def isTokenExpired (decode : String → Option (Option Int)) (now : Int) :
    Option String → Bool
  | none => true
  | some t =>
    if t = "" then true
    else
      match decode t with
      | none => true
      | some none => false
      | some (some e) => decide (e * 1000 ≤ now)

/-! ## Frontend: `hooks/useVideoProcessing.js`, `estimateCompressedSize` -/

/-- Constant `baseCrf` from `estimateCompressedSize`. -/
def baseCrf : ℤ := 18

/-- Constant `compressionRate` from `estimateCompressedSize`
(`0.1285` as an exact rational). -/
def compressionRate : ℚ := 1285 / 10000

/-- Embeds `estimateCompressedSize(originalSize, crfValue)`:
`originalSize * Math.pow(1 - compressionRate, crfValue - baseCrf)`,
with JS numbers modelled as exact rationals and the CRF slider value as
an integer. -/
def estimateCompressedSize (originalSize : ℚ) (crfValue : ℤ) : ℚ :=
  originalSize * (1 - compressionRate) ^ (crfValue - baseCrf)

/-! ## Frontend: JS `parseInt(s, 10)` model -/

/-- Accumulates the longest leading run of decimal digits,
stopping at the first non-digit (as `parseInt` does). -/
def takeDigits : List Char → Nat → Nat
  | [], acc => acc
  | c :: rest, acc =>
    if c.isDigit then takeDigits rest (acc * 10 + (c.toNat - 48)) else acc

/-- Embeds JS `parseInt(s, 10)`: skip leading whitespace, optional
sign, then the longest digit run; `none` models `NaN` (no digits). -/
def jsParseInt (s : String) : Option Int :=
  match s.data.dropWhile (fun c => c.isWhitespace) with
  | [] => none
  | '-' :: rest =>
    match rest with
    | [] => none
    | c :: _ => if c.isDigit then some (-(takeDigits rest 0 : Int)) else none
  | '+' :: rest =>
    match rest with
    | [] => none
    | c :: _ => if c.isDigit then some ((takeDigits rest 0 : Int)) else none
  | c :: cs => if c.isDigit then some ((takeDigits (c :: cs) 0 : Int)) else none

/-! ## Frontend: `handleUpload` -/

/-- JS `s.startsWith(pre)` as used by `handleUpload` on the MIME type,
modelled executably on the character list. -/
def strStartsWith (pre s : String) : Bool := pre.data.isPrefixOf s.data

/-- The selected file, as `handleUpload` reads it (`file.name`,
`file.type`, `file.size`). -/
structure FileInfo where
  name : String
  type : String
  size : Nat
deriving DecidableEq

/-- The slice of the hook state read by `handleUpload`. -/
structure HookState where
  file : Option FileInfo
  token : Option String
  isUploading : Bool
  clientId : String
  crf : Nat
  bitrate : Nat
  resolution : String
  customWidth : String
  customHeight : String
  useGPU : Bool
deriving DecidableEq

/-- The `userInfo` prop: `upload_capacity_bytes` may be absent. -/
structure UserInfo where
  upload_capacity_bytes : Option Nat
deriving DecidableEq

/-- Default capacity `104857600` (100 MB) used when
`userInfo && userInfo.upload_capacity_bytes` is falsy. -/
def defaultCapacity : Nat := 104857600

/-- Embeds `userInfo && userInfo.upload_capacity_bytes ?
userInfo.upload_capacity_bytes : 104857600`; note `0` is falsy in JS,
so a configured capacity of `0` also falls back to the default. -/
def capacityOf : Option UserInfo → Nat
  | none => defaultCapacity
  | some u =>
    match u.upload_capacity_bytes with
    | none => defaultCapacity
    | some b => if b = 0 then defaultCapacity else b

/-- Responses of the three network calls `handleUpload` makes, as the
environment the run unfolds against.  `uploadUrl`/`key` are the fields
of the get-upload-url JSON body (`none` = absent). -/
structure UploadEnv where
  getUrlOk : Bool
  uploadUrl : Option String
  key : Option String
  putOk : Bool
  compressOk : Bool
deriving DecidableEq

/-- Observable side effects of one `handleUpload` run, in order. -/
inductive UploadAction
  | fetchUploadUrl (filename : String) (fileSize : Nat)
  | storagePut (url : String)
  | postCompress (filename : String) (crf : Nat) (bitrate : Nat)
      (resolution : String) (width : Option String) (height : Option String)
      (useGpu : Bool) (clientId : String) (key : String)
  | logoutAction
deriving DecidableEq

/-- Which early-return (or success) ended the `handleUpload` run; each
tag corresponds to one `setErrorMessage`/return site in the code. -/
inductive UploadOutcome
  | noop
  | sessionExpired
  | invalidFileType
  | overCapacity
  | uploadUrlRequestFailed
  | invalidUploadUrlResponse
  | storagePutFailed
  | invalidCustomResolution
  | compressRequestFailed
  | accepted
deriving DecidableEq

/-- Models JS `parseInt(s, 10) <= 0`: `false` when the parse yields `NaN`. -/
def nonPositiveStr (s : String) : Bool :=
  match jsParseInt s with
  | some n => decide (n ≤ 0)
  | none => false

/-- The custom-resolution rejection condition of `handleUpload`:
`!customWidth || !customHeight || parseInt(customWidth, 10) <= 0 ||
parseInt(customHeight, 10) <= 0`. -/
def customResolutionInvalid (w h : String) : Bool :=
  decide (w = "") || decide (h = "") || nonPositiveStr w || nonPositiveStr h

/-- Embeds `handleUpload` from `frontend/hooks/useVideoProcessing.js` as
a function from the hook state, `userInfo`, and the network environment
to the ordered list of observable actions plus the outcome.  Control
flow mirrors the source: the `!file || !token || isUploading` guard,
the token-expiry logout, the `video/` MIME check, the per-user capacity
check, the get-upload-url fetch and its `upload_url`/`key` truthiness
check, the storage PUT, the custom-resolution validation, and finally
the compress POST carrying `client_id = clientId`. -/
def handleUpload (decode : String → Option (Option Int)) (now : Int)
    (st : HookState) (userInfo : Option UserInfo) (env : UploadEnv) :
    List UploadAction × UploadOutcome :=
  match st.file, st.token with
  | none, _ => ([], .noop)
  | some _, none => ([], .noop)
  | some f, some tok =>
    if st.isUploading then ([], .noop)
    else
      let userCapacity := capacityOf userInfo
      if isTokenExpired decode now (some tok) then
        ([.logoutAction], .sessionExpired)
      else if ¬ strStartsWith "video/" f.type then ([], .invalidFileType)
      else if userCapacity < f.size then ([], .overCapacity)
      else
        let acts0 := [UploadAction.fetchUploadUrl f.name f.size]
        if ¬ env.getUrlOk then (acts0, .uploadUrlRequestFailed)
        else
          match env.uploadUrl, env.key with
          | some url, some key =>
            if url = "" ∨ key = "" then (acts0, .invalidUploadUrlResponse)
            else
              let acts1 := acts0 ++ [UploadAction.storagePut url]
              if ¬ env.putOk then (acts1, .storagePutFailed)
              else if st.resolution = "custom" ∧
                  customResolutionInvalid st.customWidth st.customHeight then
                (acts1, .invalidCustomResolution)
              else
                let wh : Option String × Option String :=
                  if st.resolution = "custom" then
                    (some st.customWidth, some st.customHeight)
                  else (none, none)
                let acts2 := acts1 ++
                  [UploadAction.postCompress f.name st.crf st.bitrate
                    st.resolution wh.1 wh.2 st.useGPU st.clientId key]
                if ¬ env.compressOk then (acts2, .compressRequestFailed)
                else (acts2, .accepted)
          | _, _ => (acts0, .invalidUploadUrlResponse)

/-- Whether an action is the compress POST (the request that starts a
Compression Worker). -/
def UploadAction.isCompress : UploadAction → Bool
  | .postCompress _ _ _ _ _ _ _ _ _ => true
  | _ => false

/-- The `client_id` fields of the compress POSTs in a trace, in order. -/
def compressClientIds : List UploadAction → List String
  | [] => []
  | .postCompress _ _ _ _ _ _ _ cid _ :: rest => cid :: compressClientIds rest
  | _ :: rest => compressClientIds rest

/-! ## Frontend: `downloadCompressedVideo` -/

/-- Responses of the two network calls `downloadCompressedVideo` makes:
the `/check-compression/` GET (`checkOk`, and the `status` field of its
JSON body) and the direct-download-URL GET. -/
structure DownloadEnv where
  checkOk : Bool
  checkStatus : String
  urlOk : Bool
  downloadUrl : String
deriving DecidableEq

/-- Observable side effects of one `downloadCompressedVideo` run. -/
inductive DownloadAction
  | checkCompression (filename : String)
  | fetchDownloadUrl (filename : String)
  | clickDownload (url : String) (filename : String)
deriving DecidableEq

/-- How a `downloadCompressedVideo` run ended. -/
inductive DownloadOutcome
  | noop
  | checkFailed
  | stillProcessing
  | urlFetchFailed
  | downloaded
deriving DecidableEq

/-- Embeds `downloadCompressedVideo`: guard on
`!compressedFileName || isDownloading`; first GET
`/check-compression/<name>`; abort on non-ok; abort (with a
"not finished yet, retry later" notice, neither a completed nor a
failed download) when `status === "processing"`; then GET the direct
download URL and click the resulting link. -/
def downloadCompressedVideo (compressedFileName : String)
    (isDownloading : Bool) (env : DownloadEnv) :
    List DownloadAction × DownloadOutcome :=
  if compressedFileName = "" ∨ isDownloading then ([], .noop)
  else
    let acts0 := [DownloadAction.checkCompression compressedFileName]
    if ¬ env.checkOk then (acts0, .checkFailed)
    else if env.checkStatus = "processing" then (acts0, .stillProcessing)
    else
      let acts1 := acts0 ++ [DownloadAction.fetchDownloadUrl compressedFileName]
      if ¬ env.urlOk then (acts1, .urlFetchFailed)
      else
        (acts1 ++ [.clickDownload env.downloadUrl compressedFileName],
         .downloaded)

/-! ## Backend models (spec §§4.1–4.4)

The backend sources (submission endpoint, compression worker,
correlation registry) are not among the sources at hand; the
definitions below are modelled from the specification. -/

/-- Job status as in spec §4.3: `pending -> running -> done | error`. -/
inductive JobStatus
  | pending
  | running
  | done
  | error
deriving DecidableEq

/-- Statuses `done` and `error` are terminal. -/
def JobStatus.isTerminal : JobStatus → Bool
  | .done => true
  | .error => true
  | _ => false

/-- Modelled from the spec: a Job record (§3), reduced to the fields the
claims mention — its id (the correlation id) and its status. -/
structure Job where
  id : String
  status : JobStatus
deriving DecidableEq

/-- Modelled from the spec: the submission endpoint configuration —
the allowed quality range, the allowed resolution-mode set, the maximum
custom dimension, and the rate-limit window count (§4.2 names these
bounds without fixing values, so they are parameters). -/
structure SubmitConfig where
  crfMin : Nat
  crfMax : Nat
  allowedModes : List String
  maxDim : Int
  rateLimit : Nat
deriving DecidableEq

/-- Modelled from the spec: one submission request as seen by the
endpoint after form parsing, together with the caller facts the checks
consult (declared source size, the caller's byte budget, and the count
of the caller's submissions in the trailing window). -/
structure SubmitReq where
  filename : String
  declaredSize : Nat
  quota : Nat
  crf : Nat
  resolution : String
  width : Option Int
  height : Option Int
  useGpu : Bool
  corrId : String
  recentCount : Nat
deriving DecidableEq

/-- Synchronous rejection taxonomy of spec §4.2 / §7. -/
inductive SubmitError
  | quotaExceeded
  | validationError
  | rateLimited
deriving DecidableEq

/-- The non-blocking success result of the submission endpoint. -/
inductive SubmitResp
  | accepted
deriving DecidableEq

/-- Modelled from the spec: parameter validation of §4.2 — quality in
the allowed range, resolution mode in the allowed set, and for mode
"custom" positive width/height within the maximum bound. -/
def paramsValid (cfg : SubmitConfig) (req : SubmitReq) : Bool :=
  (decide (cfg.crfMin ≤ req.crf) && decide (req.crf ≤ cfg.crfMax)) &&
  cfg.allowedModes.contains req.resolution &&
  (if req.resolution = "custom" then
    match req.width, req.height with
    | some w, some h =>
      decide (0 < w) && decide (w ≤ cfg.maxDim) &&
      decide (0 < h) && decide (h ≤ cfg.maxDim)
    | _, _ => false
  else true)

/-- Modelled from the spec: the Job Submission Endpoint (§4.2) —
fail-fast validation in the stated order (quota, parameters, rate
limit), then immediate acceptance with a `pending` Job; the Worker runs
only after this returns. -/
def submit (cfg : SubmitConfig) (req : SubmitReq) :
    Except SubmitError (SubmitResp × Job) :=
  if req.quota < req.declaredSize then .error .quotaExceeded
  else if ¬ paramsValid cfg req then .error .validationError
  else if cfg.rateLimit ≤ req.recentCount then .error .rateLimited
  else .ok (.accepted, ⟨req.corrId, .pending⟩)

/-! ## Compression Worker model (spec §4.3, §4.4, design note §9) -/

/-- Modelled from the spec: one element of the external encoder's
lazily produced output — a raw progress report or a non-fatal
advisory. -/
inductive EncoderItem
  | progressReport (p : Nat)
  | advisory (d : String)
deriving DecidableEq

/-- Modelled from the spec: how the external encoder run ended —
success with a result object, or failure with a detail string. -/
inductive EncoderOutcome
  | success (outKey : String) (size : Nat)
  | failure (detail : String)
deriving DecidableEq

/-- Modelled from the spec: a complete external encoder run — a finite
sequence of non-terminal items followed by one terminal outcome
(design note §9: an iterator of progress/warning events then a terminal
result). -/
structure EncoderRun where
  items : List EncoderItem
  outcome : EncoderOutcome
deriving DecidableEq

/-- Notification Channel events of spec §4.4:
`progress`, `warning`, `done`, `error`. -/
inductive WEvent
  | progress (p : Nat)
  | warning (d : String)
  | done (outKey : String) (size : Nat)
  | error (detail : String)
deriving DecidableEq

/-- Terminal events: `done` and `error`. -/
def WEvent.isTerminal : WEvent → Bool
  | .done _ _ => true
  | .error _ => true
  | _ => false

/-- Is this a `done` event? -/
def WEvent.isDone : WEvent → Bool
  | .done _ _ => true
  | _ => false

/-- Is this an `error` event? -/
def WEvent.isError : WEvent → Bool
  | .error _ => true
  | _ => false

/-- Modelled from the spec: the Worker's event emission over the
non-terminal encoder items (§4.3): it forwards advisories as `warning`
and turns raw progress reports into a monotonically non-decreasing
0–100 percentage estimate by clamping each report to 100 and never
sending a value below the last one sent (`last` is the last percentage
sent so far, initially 0). -/
def emitItems : Nat → List EncoderItem → List WEvent
  | _, [] => []
  | last, .progressReport p :: rest =>
    let q := max last (min p 100)
    .progress q :: emitItems q rest
  | last, .advisory d :: rest => .warning d :: emitItems last rest

/-- Modelled from the spec: the single terminal event of a Job's
session — `done` on encoder success, `error` on failure (§4.3). -/
def terminalEvent : EncoderOutcome → WEvent
  | .success k sz => .done k sz
  | .failure d => .error d

/-- Modelled from the spec: the full event sequence a Worker emits for
one Job — the non-terminal events followed by exactly the one terminal
event, after which the session emits nothing further (§4.3/§4.4). -/
def runWorker (enc : EncoderRun) : List WEvent :=
  emitItems 0 enc.items ++ [terminalEvent enc.outcome]

/-- Modelled from the spec: the terminal Job status matching the
encoder outcome. -/
def finalStatus : EncoderOutcome → JobStatus
  | .success _ _ => .done
  | .failure _ => .error

/-- Modelled from the spec: the Worker runs one Job to completion or
failure after submission has returned, producing the terminal Job and
the emitted event sequence. -/
def workerRun (j : Job) (enc : EncoderRun) : Job × List WEvent :=
  ({ j with status := finalStatus enc.outcome }, runWorker enc)

/-- The percentages carried by the `progress` events of a trace. -/
def progressVals : List WEvent → List Nat
  | [] => []
  | .progress p :: rest => p :: progressVals rest
  | _ :: rest => progressVals rest

/-! ## Correlation Registry model (spec §4.1, §3 lifecycle) -/

/-- Modelled from the spec: one Notification Channel as the registry
sees it — its correlation id, a handle (`nonce`, unique per channel),
and its open/closed state (§3). -/
structure Chan where
  cid : String
  nonce : Nat
  isOpen : Bool
deriving DecidableEq

/-- Modelled from the spec: the registry state — every channel created
so far (with its current open/closed state) and the mapping from
correlation id to the nonce of the currently registered channel
(§4.1). -/
structure RegState where
  chans : List Chan
  reg : String → Option Nat

/-- The initial registry: no channels, empty mapping. -/
def regInit : RegState := ⟨[], fun _ => none⟩

/-- Marks the channel with the given nonce closed. -/
def markClosed (n : Nat) (c : Chan) : Chan :=
  if c.nonce = n then ⟨c.cid, c.nonce, false⟩ else c

/-- Closes the channel with the given nonce in a channel list. -/
def closeNonce (l : List Chan) (n : Nat) : List Chan :=
  l.map (markClosed n)

/-- The channel list after the close-the-old-entry side effect of
`register`: the previously registered channel for `cid` (if any) is
closed, everything else is untouched. -/
def regBase (s : RegState) (cid : String) : List Chan :=
  match s.reg cid with
  | some old => closeNonce s.chans old
  | none => s.chans

/-- Modelled from the spec: `register(correlationId, channel)` (§4.1) —
a fresh channel (nonce = number of channels ever created) is installed
for `cid`, and any previously registered channel for that id is closed
as a side effect. -/
def register (s : RegState) (cid : String) : RegState :=
  ⟨regBase s cid ++ [⟨cid, s.chans.length, true⟩],
   fun x => if x = cid then some s.chans.length else s.reg x⟩

/-- Modelled from the spec: client disconnect (§3 lifecycle with §4.1
`unregister`) — the channel with nonce `n` closes, and the mapping is
removed only where it still stores that exact channel. -/
def disconnect (s : RegState) (n : Nat) : RegState :=
  ⟨closeNonce s.chans n,
   fun x =>
     match s.reg x with
     | some m => if m = n then none else some m
     | none => none⟩

/-- Registry states reachable from the initial state by registrations
and disconnects. -/
inductive Reachable : RegState → Prop
  | init : Reachable regInit
  | register (s : RegState) (cid : String) :
      Reachable s → Reachable (register s cid)
  | disconnect (s : RegState) (n : Nat) :
      Reachable s → Reachable (disconnect s n)

/-- The registry invariant: channel nonces index the creation list;
the mapping points at an existing channel of the right correlation id;
and every open channel is the one currently registered for its id. -/
def RegInv (s : RegState) : Prop :=
  (∀ i : Nat, ∀ c : Chan, s.chans[i]? = some c → c.nonce = i) ∧
  (∀ x n, s.reg x = some n → ∃ c : Chan, s.chans[n]? = some c ∧ c.cid = x) ∧
  (∀ c ∈ s.chans, c.isOpen = true → s.reg c.cid = some c.nonce)

/-! ### Registry lemmas -/

lemma markClosed_nonce (n : Nat) (c : Chan) : (markClosed n c).nonce = c.nonce := by
  unfold markClosed; split <;> rfl

lemma markClosed_cid (n : Nat) (c : Chan) : (markClosed n c).cid = c.cid := by
  unfold markClosed; split <;> rfl

lemma markClosed_of_ne (n : Nat) (c : Chan) (h : c.nonce ≠ n) :
    markClosed n c = c := by
  unfold markClosed; simp [h]

lemma closeNonce_length (l : List Chan) (n : Nat) :
    (closeNonce l n).length = l.length := by
  simp [closeNonce]

lemma closeNonce_getElem? (l : List Chan) (n i : Nat) :
    (closeNonce l n)[i]? = l[i]?.map (markClosed n) :=
  List.getElem?_map (markClosed n) l i

lemma mem_closeNonce (l : List Chan) (n : Nat) (c : Chan) :
    c ∈ closeNonce l n ↔ ∃ c0 ∈ l, markClosed n c0 = c := by
  simp [closeNonce]

lemma regBase_length (s : RegState) (cid : String) :
    (regBase s cid).length = s.chans.length := by
  unfold regBase
  rcases s.reg cid with _ | old
  · rfl
  · exact closeNonce_length s.chans old

lemma regBase_getElem?_nonce (s : RegState) (cid : String) (i : Nat) :
    ((regBase s cid)[i]?).map Chan.nonce = (s.chans[i]?).map Chan.nonce := by
  unfold regBase
  rcases s.reg cid with _ | old
  · rfl
  · rw [closeNonce_getElem?]
    rcases s.chans[i]? with _ | c
    · rfl
    · simp [markClosed_nonce]

lemma regBase_getElem?_cid (s : RegState) (cid : String) (i : Nat) :
    ((regBase s cid)[i]?).map Chan.cid = (s.chans[i]?).map Chan.cid := by
  unfold regBase
  rcases s.reg cid with _ | old
  · rfl
  · rw [closeNonce_getElem?]
    rcases s.chans[i]? with _ | c
    · rfl
    · simp [markClosed_cid]

/-- An open channel surviving the `register` close-old step was already
present, and is not the one the registry had stored for `cid`. -/
lemma mem_regBase_open (s : RegState) (cid : String) (c : Chan)
    (hc : c ∈ regBase s cid) (hopen : c.isOpen = true) :
    c ∈ s.chans ∧ ∀ old, s.reg cid = some old → c.nonce ≠ old := by
  rcases hreg : s.reg cid with _ | old
  · unfold regBase at hc
    rw [hreg] at hc
    refine ⟨hc, fun old h => ?_⟩
    exact Option.noConfusion h
  · unfold regBase at hc
    rw [hreg] at hc
    obtain ⟨c0, hc0, hmk⟩ := (mem_closeNonce _ _ _).mp hc
    by_cases h0 : c0.nonce = old
    · exfalso
      rw [← hmk] at hopen
      unfold markClosed at hopen
      rw [if_pos h0] at hopen
      exact Bool.noConfusion hopen
    · rw [markClosed_of_ne old c0 h0] at hmk
      subst hmk
      refine ⟨hc0, fun old2 h2 => ?_⟩
      have h3 : old = old2 := by injection h2
      omega

/-- After the close-old step, every channel carrying the previously
registered nonce is closed. -/
lemma mem_regBase_nonce_closed (s : RegState) (cid : String) (old : Nat)
    (hreg : s.reg cid = some old) (c : Chan) (hc : c ∈ regBase s cid)
    (hn : c.nonce = old) : c.isOpen = false := by
  unfold regBase at hc
  rw [hreg] at hc
  obtain ⟨c0, _, hmk⟩ := (mem_closeNonce _ _ _).mp hc
  have h0 : c0.nonce = old := by
    rw [← hmk] at hn
    rw [markClosed_nonce] at hn
    exact hn
  rw [← hmk]
  unfold markClosed
  rw [if_pos h0]

lemma regInv_init : RegInv regInit := by
  refine ⟨?_, ?_, ?_⟩
  · intro i c h; simp [regInit] at h
  · intro x n h; simp [regInit] at h
  · intro c hc; simp [regInit] at hc

lemma register_chans (s : RegState) (cid : String) :
    (register s cid).chans = regBase s cid ++ [⟨cid, s.chans.length, true⟩] := rfl

lemma register_reg (s : RegState) (cid x : String) :
    (register s cid).reg x = if x = cid then some s.chans.length else s.reg x := rfl

lemma regInv_register (s : RegState) (cid : String) (hInv : RegInv s) :
    RegInv (register s cid) := by
  obtain ⟨hIdx, hSound, hOpen⟩ := hInv
  refine ⟨?_, ?_, ?_⟩
  · intro i c h
    rw [register_chans] at h
    by_cases hi : i < (regBase s cid).length
    · rw [List.getElem?_append_left hi] at h
      have hmap := regBase_getElem?_nonce s cid i
      rw [h] at hmap
      obtain ⟨c0, hc0, hnc⟩ := Option.map_eq_some'.mp hmap.symm
      have := hIdx i c0 hc0
      omega
    · push_neg at hi
      rw [List.getElem?_append_right hi] at h
      rw [regBase_length] at hi
      rcases Nat.lt_or_ge (i - (regBase s cid).length) 1 with hlt | hge
      · have : i - (regBase s cid).length = 0 := by omega
        rw [this] at h
        have hc : c = ⟨cid, s.chans.length, true⟩ := by
          injection h with h2
          exact h2.symm
        subst hc
        show s.chans.length = i
        rw [regBase_length] at this
        omega
      · rw [List.getElem?_eq_none (by simpa using hge)] at h
        exact Option.noConfusion h
  · intro x n h
    rw [register_reg] at h
    rw [register_chans]
    by_cases hx : x = cid
    · rw [if_pos hx] at h
      have hn : n = s.chans.length := by injection h with h2; omega
      subst hn
      refine ⟨⟨cid, s.chans.length, true⟩, ?_, hx.symm ▸ rfl⟩
      rw [List.getElem?_append_right (by rw [regBase_length])]
      rw [regBase_length]
      simp
    · rw [if_neg hx] at h
      obtain ⟨c0, hc0, hcid⟩ := hSound x n h
      have hb : n < s.chans.length := by
        obtain ⟨hb, -⟩ := List.getElem?_eq_some.mp hc0
        exact hb
      have hb1 : n < (regBase s cid).length := by rw [regBase_length]; exact hb
      rw [List.getElem?_append_left hb1]
      have hmap := regBase_getElem?_cid s cid n
      rw [hc0] at hmap
      obtain ⟨c1, hc1, hcc⟩ := Option.map_eq_some'.mp hmap
      exact ⟨c1, hc1, by rw [hcc, hcid]⟩
  · intro c hc hopen
    rw [register_chans] at hc
    rw [register_reg]
    rcases List.mem_append.mp hc with hcs | hnew
    · obtain ⟨hmem, hnold⟩ := mem_regBase_open s cid c hcs hopen
      have hr := hOpen c hmem hopen
      have hne : c.cid ≠ cid := by
        intro hceq
        rw [hceq] at hr
        exact hnold c.nonce hr rfl
      rw [if_neg hne]
      exact hr
    · have hceq : c = ⟨cid, s.chans.length, true⟩ := List.mem_singleton.mp hnew
      subst hceq
      simp

lemma disconnect_chans (s : RegState) (n : Nat) :
    (disconnect s n).chans = closeNonce s.chans n := rfl

lemma disconnect_reg (s : RegState) (n : Nat) (x : String) (m : Nat)
    (h : (disconnect s n).reg x = some m) : s.reg x = some m ∧ m ≠ n := by
  have h2 : (match s.reg x with
    | some m0 => if m0 = n then none else some m0
    | none => none) = some m := h
  rcases hx : s.reg x with _ | m0
  · rw [hx] at h2
    exact Option.noConfusion h2
  · rw [hx] at h2
    have h3 : (if m0 = n then none else some m0) = some m := h2
    by_cases hmn : m0 = n
    · rw [if_pos hmn] at h3
      exact Option.noConfusion h3
    · rw [if_neg hmn] at h3
      have h4 : m0 = m := by injection h3
      subst h4
      exact ⟨rfl, hmn⟩

lemma disconnect_reg_of_ne (s : RegState) (n : Nat) (x : String) (m : Nat)
    (hx : s.reg x = some m) (hmn : m ≠ n) : (disconnect s n).reg x = some m := by
  have h2 : (disconnect s n).reg x = match s.reg x with
    | some m0 => if m0 = n then none else some m0
    | none => none := rfl
  rw [h2, hx]
  show (if m = n then none else some m) = some m
  rw [if_neg hmn]

lemma regInv_disconnect (s : RegState) (n : Nat) (hInv : RegInv s) :
    RegInv (disconnect s n) := by
  obtain ⟨hIdx, hSound, hOpen⟩ := hInv
  refine ⟨?_, ?_, ?_⟩
  · intro i c h
    rw [disconnect_chans, closeNonce_getElem?] at h
    obtain ⟨c0, hc0, hmk⟩ := Option.map_eq_some'.mp h
    have := hIdx i c0 hc0
    rw [← hmk, markClosed_nonce]
    exact this
  · intro x m h
    obtain ⟨hx, hmn⟩ := disconnect_reg s n x m h
    obtain ⟨c0, hc0, hcid⟩ := hSound x m hx
    rw [disconnect_chans, closeNonce_getElem?, hc0]
    exact ⟨markClosed n c0, rfl, by rw [markClosed_cid]; exact hcid⟩
  · intro c hc hopen
    rw [disconnect_chans] at hc
    obtain ⟨c0, hc0, hmk⟩ := (mem_closeNonce _ _ _).mp hc
    by_cases h0 : c0.nonce = n
    · exfalso
      rw [← hmk] at hopen
      unfold markClosed at hopen
      rw [if_pos h0] at hopen
      exact Bool.noConfusion hopen
    · rw [markClosed_of_ne n c0 h0] at hmk
      rw [← hmk]
      rw [← hmk] at hopen
      exact disconnect_reg_of_ne s n c0.cid c0.nonce (hOpen c0 hc0 hopen) h0

lemma reachable_regInv (s : RegState) (h : Reachable s) : RegInv s := by
  induction h with
  | init => exact regInv_init
  | register s cid _ ih => exact regInv_register s cid ih
  | disconnect s n _ ih => exact regInv_disconnect s n ih

/-- In any state satisfying the invariant, a channel is determined by
its nonce: membership pins it to the creation-list slot its nonce
names. -/
lemma chan_eq_of_nonce_eq (s : RegState) (hInv : RegInv s)
    (c1 c2 : Chan) (h1 : c1 ∈ s.chans) (h2 : c2 ∈ s.chans)
    (hn : c1.nonce = c2.nonce) : c1 = c2 := by
  obtain ⟨hIdx, -, -⟩ := hInv
  obtain ⟨i1, hi1, hg1⟩ := List.mem_iff_getElem.mp h1
  obtain ⟨i2, hi2, hg2⟩ := List.mem_iff_getElem.mp h2
  have e1 : c1.nonce = i1 := hIdx i1 c1 (by rw [← hg1]; exact List.getElem?_eq_getElem hi1)
  have e2 : c2.nonce = i2 := hIdx i2 c2 (by rw [← hg2]; exact List.getElem?_eq_getElem hi2)
  have : i1 = i2 := by omega
  subst this
  rw [← hg1, ← hg2]

/-! ### Worker lemmas -/

lemma emitItems_not_terminal (last : Nat) (items : List EncoderItem) :
    ∀ e ∈ emitItems last items, e.isTerminal = false := by
  induction items generalizing last with
  | nil => intro e he; simp [emitItems] at he
  | cons it rest ih =>
    intro e he
    cases it with
    | progressReport p =>
      simp only [emitItems] at he
      rcases List.mem_cons.mp he with h | h
      · subst h; rfl
      · exact ih _ e h
    | advisory d =>
      simp only [emitItems] at he
      rcases List.mem_cons.mp he with h | h
      · subst h; rfl
      · exact ih _ e h

lemma terminalEvent_isTerminal (o : EncoderOutcome) :
    (terminalEvent o).isTerminal = true := by
  cases o <;> rfl

lemma progressVals_append (l1 l2 : List WEvent) :
    progressVals (l1 ++ l2) = progressVals l1 ++ progressVals l2 := by
  induction l1 with
  | nil => rfl
  | cons e rest ih => cases e <;> simp [progressVals, ih]

/-- Everything the Worker emits after having last sent `last` is at
least `last`, and the emitted percentages are pairwise non-decreasing. -/
lemma progressVals_emitItems (items : List EncoderItem) :
    ∀ last, (∀ q ∈ progressVals (emitItems last items), last ≤ q) ∧
      List.Pairwise (fun a b => a ≤ b) (progressVals (emitItems last items)) := by
  induction items with
  | nil =>
    intro last
    refine ⟨?_, ?_⟩
    · intro q hq; simp [emitItems, progressVals] at hq
    · simp [emitItems, progressVals]
  | cons it rest ih =>
    intro last
    cases it with
    | progressReport p =>
      have h1 := ih (max last (min p 100))
      refine ⟨?_, ?_⟩
      · intro q hq
        simp only [emitItems, progressVals] at hq
        rcases List.mem_cons.mp hq with h | h
        · subst h; exact le_max_left _ _
        · exact le_trans (le_max_left _ _) (h1.1 q h)
      · simp only [emitItems, progressVals]
        exact List.Pairwise.cons (fun b hb => h1.1 b hb) h1.2
    | advisory d =>
      have h1 := ih last
      refine ⟨?_, ?_⟩
      · intro q hq
        simp only [emitItems, progressVals] at hq
        exact h1.1 q hq
      · simp only [emitItems, progressVals]
        exact h1.2

/-! ## Claim theorems -/

/-- Claim C1: for every Job (encoder run), the Worker's notification
session ends with exactly one terminal event — `done` or `error`,
never both, never zero — and no event for the Job follows it: the
session is a terminal-free prefix followed by the single terminal
event, which is a `done` or an `error`. -/
theorem worker_exactly_one_terminal_event (enc : EncoderRun) :
    ∃ pre t, runWorker enc = pre ++ [t] ∧ t.isTerminal = true ∧
      (∀ e ∈ pre, e.isTerminal = false) ∧
      (runWorker enc).countP (fun e => e.isTerminal) = 1 ∧
      (t.isDone = true ∨ t.isError = true) := by
  refine ⟨emitItems 0 enc.items, terminalEvent enc.outcome, rfl,
    terminalEvent_isTerminal enc.outcome, emitItems_not_terminal 0 enc.items,
    ?_, ?_⟩
  · rw [runWorker, List.countP_append]
    have h0 : (emitItems 0 enc.items).countP (fun e => e.isTerminal) = 0 := by
      rw [List.countP_eq_zero]
      intro a ha
      simp [emitItems_not_terminal 0 enc.items a ha]
    rw [h0]
    simp [List.countP_cons, terminalEvent_isTerminal]
  · cases enc.outcome with
    | success k sz => exact Or.inl rfl
    | failure d => exact Or.inr rfl

/-- Claim C2: for every Job (encoder run), the sequence of `progress`
percentages the Worker emits over the Notification Channel is
non-decreasing: no `progress` event carries a lower percentage than any
earlier `progress` event of the same Job. -/
theorem worker_progress_nondecreasing (enc : EncoderRun) :
    List.Pairwise (fun a b => a ≤ b) (progressVals (runWorker enc)) := by
  rw [runWorker, progressVals_append]
  have h2 : progressVals [terminalEvent enc.outcome] = [] := by
    cases enc.outcome <;> rfl
  rw [h2, List.append_nil]
  exact (progressVals_emitItems enc.items 0).2

/-- Claim C3: in every reachable registry state at most one channel is
open per correlation id, and registering a new channel for a
correlation id that already has one closes the previously registered
channel — in the post-`register` state every channel carrying the old
nonce is observably closed. -/
theorem registry_one_open_per_id_and_supersede (s : RegState)
    (h : Reachable s) :
    (∀ c1 c2 : Chan, c1 ∈ s.chans → c2 ∈ s.chans → c1.cid = c2.cid →
      c1.isOpen = true → c2.isOpen = true → c1 = c2) ∧
    (∀ cid old, s.reg cid = some old →
      ∀ c ∈ (register s cid).chans, c.nonce = old → c.isOpen = false) := by
  have hInv := reachable_regInv s h
  obtain ⟨hIdx, hSound, hOpen⟩ := hInv
  constructor
  · intro c1 c2 h1 h2 hcid ho1 ho2
    have r1 := hOpen c1 h1 ho1
    have r2 := hOpen c2 h2 ho2
    rw [hcid] at r1
    rw [r2] at r1
    have hn : c2.nonce = c1.nonce := by injection r1
    exact (chan_eq_of_nonce_eq s ⟨hIdx, hSound, hOpen⟩ c2 c1 h2 h1 hn).symm
  · intro cid old hreg c hc hn
    rw [register_chans] at hc
    rcases List.mem_append.mp hc with hcs | hnew
    · exact mem_regBase_nonce_closed s cid old hreg c hcs hn
    · exfalso
      have hceq : c = ⟨cid, s.chans.length, true⟩ := List.mem_singleton.mp hnew
      obtain ⟨c0, hc0, -⟩ := hSound cid old hreg
      have hb : old < s.chans.length := (List.getElem?_eq_some.mp hc0).1
      rw [hceq] at hn
      have hn2 : s.chans.length = old := hn
      omega

/-- Witness for the registry claim at a concrete reachable state:
after registering twice for correlation id "a", the first channel
(nonce 0) is present and closed, and every channel carrying nonce 0 is
closed. -/
theorem registry_one_open_per_id_witness :
    ((⟨"a", 0, false⟩ : Chan) ∈ (register (register regInit "a") "a").chans) ∧
    (∀ c ∈ (register (register regInit "a") "a").chans,
      c.nonce = 0 → c.isOpen = false) :=
  ⟨by decide,
   (registry_one_open_per_id_and_supersede (register regInit "a")
      (Reachable.register _ _ Reachable.init)).2 "a" 0 (by decide)⟩

/-! ### `handleUpload` trace lemmas -/

lemma compressClientIds_nil_of (l : List UploadAction)
    (h : compressClientIds l = []) : ∀ a ∈ l, a.isCompress = false := by
  induction l with
  | nil => intro a ha; cases ha
  | cons b rest ih =>
    intro a ha
    cases b with
    | postCompress fn c br r w hh g cid k =>
      exact absurd h (by simp [compressClientIds])
    | fetchUploadUrl fn sz =>
      rcases List.mem_cons.mp ha with h2 | h2
      · subst h2; rfl
      · exact ih h a h2
    | storagePut u =>
      rcases List.mem_cons.mp ha with h2 | h2
      · subst h2; rfl
      · exact ih h a h2
    | logoutAction =>
      rcases List.mem_cons.mp ha with h2 | h2
      · subst h2; rfl
      · exact ih h a h2

/-- Exhaustive shape of a `handleUpload` run: either no compress POST
is issued and the outcome is not acceptance, or exactly one compress
POST carrying the session's `clientId` is issued — and then the
custom-resolution check passed. -/
lemma handleUpload_cases (decode : String → Option (Option Int)) (now : Int)
    (st : HookState) (userInfo : Option UserInfo) (env : UploadEnv) :
    (compressClientIds (handleUpload decode now st userInfo env).1 = [] ∧
     (handleUpload decode now st userInfo env).2 ≠ .accepted) ∨
    (compressClientIds (handleUpload decode now st userInfo env).1 = [st.clientId] ∧
     (st.resolution = "custom" →
       customResolutionInvalid st.customWidth st.customHeight = false)) := by
  cases hf : st.file with
  | none => left; simp [handleUpload, hf, compressClientIds]
  | some f =>
    cases ht : st.token with
    | none => left; simp [handleUpload, hf, ht, compressClientIds]
    | some tok =>
      by_cases hup : st.isUploading = true
      · left; simp [handleUpload, hf, ht, hup, compressClientIds]
      · by_cases hexp : isTokenExpired decode now (some tok) = true
        · left; simp [handleUpload, hf, ht, hup, hexp, compressClientIds]
        · by_cases htype : strStartsWith "video/" f.type = true
          · by_cases hcap : capacityOf userInfo < f.size
            · left
              simp [handleUpload, hf, ht, hup, hexp, htype, hcap,
                compressClientIds]
            · by_cases hok : env.getUrlOk = true
              · cases hu : env.uploadUrl with
                | none =>
                  left
                  simp [handleUpload, hf, ht, hup, hexp, htype, hcap, hok, hu,
                    compressClientIds]
                | some url =>
                  cases hk : env.key with
                  | none =>
                    left
                    simp [handleUpload, hf, ht, hup, hexp, htype, hcap, hok,
                      hu, hk, compressClientIds]
                  | some key =>
                    by_cases hempty : url = "" ∨ key = ""
                    · left
                      simp [handleUpload, hf, ht, hup, hexp, htype, hcap, hok,
                        hu, hk, hempty, compressClientIds]
                    · by_cases hput : env.putOk = true
                      · by_cases hcv : st.resolution = "custom" ∧
                          customResolutionInvalid st.customWidth
                            st.customHeight = true
                        · left
                          simp [handleUpload, hf, ht, hup, hexp, htype, hcap,
                            hok, hu, hk, hempty, hput, hcv, compressClientIds]
                        · right
                          constructor
                          · by_cases hcomp : env.compressOk = true <;>
                              simp [handleUpload, hf, ht, hup, hexp, htype,
                                hcap, hok, hu, hk, hempty, hput, hcv, hcomp,
                                compressClientIds]
                          · intro hres
                            cases hb : customResolutionInvalid st.customWidth
                              st.customHeight
                            · rfl
                            · exact absurd ⟨hres, hb⟩ hcv
                      · left
                        simp [handleUpload, hf, ht, hup, hexp, htype, hcap,
                          hok, hu, hk, hempty, hput, compressClientIds]
              · left
                simp [handleUpload, hf, ht, hup, hexp, htype, hcap, hok,
                  compressClientIds]
          · left
            simp [handleUpload, hf, ht, hup, hexp, htype, compressClientIds]

/-- The backend model accepts a custom-resolution request only with
positive width and height within the configured maximum bound. -/
lemma submit_custom_bounds (cfg : SubmitConfig) (req : SubmitReq)
    (r : SubmitResp × Job) (hres : req.resolution = "custom")
    (h : submit cfg req = .ok r) :
    ∃ w hgt, req.width = some w ∧ req.height = some hgt ∧
      0 < w ∧ w ≤ cfg.maxDim ∧ 0 < hgt ∧ hgt ≤ cfg.maxDim := by
  unfold submit at h
  by_cases h1 : req.quota < req.declaredSize
  · rw [if_pos h1] at h
    exact Except.noConfusion h
  · rw [if_neg h1] at h
    by_cases h2 : paramsValid cfg req = true
    · have hpv := h2
      unfold paramsValid at hpv
      rw [hres, if_pos rfl] at hpv
      simp only [Bool.and_eq_true] at hpv
      obtain ⟨-, hcustom⟩ := hpv
      rcases hw : req.width with _ | w
      · rw [hw] at hcustom
        rcases hh : req.height with _ | hgt <;> rw [hh] at hcustom <;>
          exact Bool.noConfusion hcustom
      · rcases hh : req.height with _ | hgt
        · rw [hw, hh] at hcustom
          exact Bool.noConfusion hcustom
        · rw [hw, hh] at hcustom
          simp only [Bool.and_eq_true, decide_eq_true_eq] at hcustom
          exact ⟨w, hgt, rfl, rfl, hcustom.1.1.1, hcustom.1.1.2,
            hcustom.1.2, hcustom.2⟩
    · rw [if_pos (by simp [h2])] at h
      exact Except.noConfusion h

/-- Claim C4: a custom-resolution submission is accepted only with
positive integer width and height within the allowed maximum bound.
Frontend: when the custom width/height fail the positivity check, no
compress POST is issued (no Worker can start) and the run does not end
accepted, in every environment.  Backend model: acceptance implies both
dimensions are positive and within `maxDim`. -/
theorem custom_resolution_validated :
    (∀ decode now st userInfo env, st.resolution = "custom" →
      customResolutionInvalid st.customWidth st.customHeight = true →
      (∀ a ∈ (handleUpload decode now st userInfo env).1, a.isCompress = false) ∧
      (handleUpload decode now st userInfo env).2 ≠ .accepted) ∧
    (∀ cfg req r, req.resolution = "custom" → submit cfg req = .ok r →
      ∃ w hgt, req.width = some w ∧ req.height = some hgt ∧
        0 < w ∧ w ≤ cfg.maxDim ∧ 0 < hgt ∧ hgt ≤ cfg.maxDim) := by
  constructor
  · intro decode now st userInfo env hres hinv
    rcases handleUpload_cases decode now st userInfo env with ⟨h1, h2⟩ | ⟨-, h2⟩
    · exact ⟨compressClientIds_nil_of _ h1, h2⟩
    · rw [h2 hres] at hinv
      exact Bool.noConfusion hinv
  · intro cfg req r hres h
    exact submit_custom_bounds cfg req r hres h

/-- Witness for the custom-resolution claim: a submission with
width "0" and height "-5" issues no compress POST, is not accepted and
ends in the custom-resolution validation error; and a concrete backend
acceptance with width 100, height 200 satisfies the bounds. -/
theorem custom_resolution_validated_witness :
    ((∀ a ∈ (handleUpload (fun _ => some (some 1)) 0
        ⟨some ⟨"a.mp4", "video/mp4", 100⟩, some "tok", false, "c", 28, 3,
          "custom", "0", "-5", true⟩ none
        ⟨true, some "u", some "k", true, true⟩).1, a.isCompress = false) ∧
     (handleUpload (fun _ => some (some 1)) 0
        ⟨some ⟨"a.mp4", "video/mp4", 100⟩, some "tok", false, "c", 28, 3,
          "custom", "0", "-5", true⟩ none
        ⟨true, some "u", some "k", true, true⟩).2 ≠ .accepted) ∧
    (handleUpload (fun _ => some (some 1)) 0
        ⟨some ⟨"a.mp4", "video/mp4", 100⟩, some "tok", false, "c", 28, 3,
          "custom", "0", "-5", true⟩ none
        ⟨true, some "u", some "k", true, true⟩).2 = .invalidCustomResolution ∧
    (∃ w hgt,
      (⟨"a.mp4", 50, 100, 28, "custom", some 100, some 200, true, "cid", 0⟩ :
        SubmitReq).width = some w ∧
      (⟨"a.mp4", 50, 100, 28, "custom", some 100, some 200, true, "cid", 0⟩ :
        SubmitReq).height = some hgt ∧
      0 < w ∧ w ≤ (⟨18, 51, ["source", "custom"], 4096, 3⟩ : SubmitConfig).maxDim ∧
      0 < hgt ∧ hgt ≤ (⟨18, 51, ["source", "custom"], 4096, 3⟩ : SubmitConfig).maxDim) :=
  ⟨custom_resolution_validated.1 (fun _ => some (some 1)) 0
      ⟨some ⟨"a.mp4", "video/mp4", 100⟩, some "tok", false, "c", 28, 3,
        "custom", "0", "-5", true⟩ none
      ⟨true, some "u", some "k", true, true⟩ rfl (by decide),
   by decide,
   custom_resolution_validated.2 ⟨18, 51, ["source", "custom"], 4096, 3⟩
      ⟨"a.mp4", 50, 100, 28, "custom", some 100, some 200, true, "cid", 0⟩
      (.accepted, ⟨"cid", .pending⟩) rfl rfl⟩

/-- Claim C5 counterexample: the claim as stated fails on the code — a
submission whose declared size exceeds the byte budget but whose MIME
type does not start with `video/` is rejected by the earlier file-type
check, not with the quota-exceeded error. -/
theorem quota_claim_counterexample :
    capacityOf none < 209715200 ∧
    handleUpload (fun _ => some (some 1)) 0
      ⟨some ⟨"big.bin", "text/plain", 209715200⟩, some "tok", false, "c", 28,
        3, "source", "", "", true⟩ none ⟨true, some "u", some "k", true, true⟩ =
      ([], .invalidFileType) ∧
    UploadOutcome.invalidFileType ≠ UploadOutcome.overCapacity :=
  ⟨by decide, by decide, by decide⟩

/-- Claim C5 as amended: a submission that passes the preliminary guards
(file selected, token present and unexpired, not already uploading,
MIME type starting with `video/`) and whose declared size exceeds the
caller's byte budget is rejected with the over-capacity error and no
asynchronous work starts: the action trace is empty — no upload URL is
requested, no bytes are PUT to storage, no compress request is issued,
so no Worker runs. -/
theorem quota_rejected_before_any_work
    (decode : String → Option (Option Int)) (now : Int) (st : HookState)
    (userInfo : Option UserInfo) (env : UploadEnv) (f : FileInfo)
    (tok : String)
    (hf : st.file = some f) (ht : st.token = some tok)
    (hup : st.isUploading = false)
    (hexp : isTokenExpired decode now (some tok) = false)
    (htype : strStartsWith "video/" f.type = true)
    (hcap : capacityOf userInfo < f.size) :
    handleUpload decode now st userInfo env = ([], .overCapacity) := by
  simp [handleUpload, hf, ht, hup, hexp, htype, hcap]

/-- Witness for the amended quota claim: a 200 MB `video/mp4` file
against the default 100 MB budget is rejected with the over-capacity
error and an empty action trace. -/
theorem quota_rejected_before_any_work_witness :
    handleUpload (fun _ => some (some 1)) 0
      ⟨some ⟨"a.mp4", "video/mp4", 209715200⟩, some "tok", false, "c", 28, 3,
        "source", "", "", true⟩ none ⟨true, some "u", some "k", true, true⟩ =
      ([], .overCapacity) :=
  quota_rejected_before_any_work (fun _ => some (some 1)) 0
    ⟨some ⟨"a.mp4", "video/mp4", 209715200⟩, some "tok", false, "c", 28, 3,
      "source", "", "", true⟩ none ⟨true, some "u", some "k", true, true⟩
    ⟨"a.mp4", "video/mp4", 209715200⟩ "tok" rfl rfl rfl (by decide) (by decide)
    (by decide)

/-- Claim C7 counterexample: the correlation id is not fresh per upload
attempt — two distinct upload attempts (different files, one hook
session) both POST compress with the same `client_id`. -/
theorem correlation_id_per_attempt_counterexample :
    compressClientIds (handleUpload (fun _ => some (some 1)) 0
      ⟨some ⟨"a.mp4", "video/mp4", 100⟩, some "tok", false, "session-1", 28, 3,
        "source", "", "", true⟩ none ⟨true, some "u", some "k", true, true⟩).1 =
      ["session-1"] ∧
    compressClientIds (handleUpload (fun _ => some (some 1)) 0
      ⟨some ⟨"b.mp4", "video/mp4", 200⟩, some "tok", false, "session-1", 28, 3,
        "source", "", "", true⟩ none ⟨true, some "u", some "k", true, true⟩).1 =
      ["session-1"] ∧
    (⟨"a.mp4", "video/mp4", 100⟩ : FileInfo) ≠ ⟨"b.mp4", "video/mp4", 200⟩ :=
  ⟨by decide, by decide, by decide⟩

/-- Claim C7 as amended: the correlation id is generated once per hook
mount and reused across upload attempts of that session: every compress
POST issued by `handleUpload` carries the session's `clientId`. -/
theorem compress_carries_session_clientId
    (decode : String → Option (Option Int)) (now : Int) (st : HookState)
    (userInfo : Option UserInfo) (env : UploadEnv) :
    ∀ cid ∈ compressClientIds (handleUpload decode now st userInfo env).1,
      cid = st.clientId := by
  intro cid hcid
  rcases handleUpload_cases decode now st userInfo env with ⟨h1, -⟩ | ⟨h1, -⟩
  · rw [h1] at hcid
    cases hcid
  · rw [h1] at hcid
    exact List.mem_singleton.mp hcid

/-- Witness for the amended correlation-id claim at a concrete
successful run. -/
theorem compress_carries_session_clientId_witness :
    ("session-1" : String) ∈ compressClientIds (handleUpload
      (fun _ => some (some 1)) 0
      ⟨some ⟨"a.mp4", "video/mp4", 100⟩, some "tok", false, "session-1", 28, 3,
        "source", "", "", true⟩ none ⟨true, some "u", some "k", true, true⟩).1 ∧
    ("session-1" : String) =
      (⟨some ⟨"a.mp4", "video/mp4", 100⟩, some "tok", false, "session-1", 28, 3,
        "source", "", "", true⟩ : HookState).clientId :=
  ⟨by decide,
   compress_carries_session_clientId (fun _ => some (some 1)) 0
      ⟨some ⟨"a.mp4", "video/mp4", 100⟩, some "tok", false, "session-1", 28, 3,
        "source", "", "", true⟩ none ⟨true, some "u", some "k", true, true⟩
      "session-1" (by decide)⟩

/-- Claim C6: for every valid submission the Job Submission Endpoint
returns "accepted" — never "completed" — while the Job is still
non-terminal; a terminal status arises only from the Compression Worker
running after the call has returned. -/
theorem submission_accepted_before_terminal (cfg : SubmitConfig)
    (req : SubmitReq) (resp : SubmitResp) (job : Job)
    (h : submit cfg req = .ok (resp, job)) :
    resp = .accepted ∧ job.status.isTerminal = false ∧
      ∀ enc : EncoderRun, ((workerRun job enc).1).status.isTerminal = true := by
  unfold submit at h
  by_cases h1 : req.quota < req.declaredSize
  · rw [if_pos h1] at h
    exact Except.noConfusion h
  · rw [if_neg h1] at h
    by_cases h2 : paramsValid cfg req = true
    · rw [if_neg (by simp [h2])] at h
      by_cases h3 : cfg.rateLimit ≤ req.recentCount
      · rw [if_pos h3] at h
        exact Except.noConfusion h
      · rw [if_neg h3] at h
        injection h with hpair
        injection hpair with hresp hjob
        subst hresp
        subst hjob
        refine ⟨rfl, rfl, ?_⟩
        intro enc
        rcases enc with ⟨items, outcome⟩
        cases outcome <;> rfl
    · rw [if_pos (by simp [h2])] at h
      exact Except.noConfusion h

/-- Witness for the non-blocking acceptance claim at a concrete valid
submission. -/
theorem submission_accepted_before_terminal_witness :
    SubmitResp.accepted = .accepted ∧
    (⟨"cid", JobStatus.pending⟩ : Job).status.isTerminal = false ∧
    ∀ enc : EncoderRun,
      ((workerRun ⟨"cid", JobStatus.pending⟩ enc).1).status.isTerminal = true :=
  submission_accepted_before_terminal ⟨18, 51, ["source", "custom"], 4096, 3⟩
    ⟨"a.mp4", 50, 100, 28, "source", none, none, true, "cid", 0⟩ .accepted
    ⟨"cid", .pending⟩ rfl

/-- Claim C8: `downloadCompressedVideo` re-queries the completion-status
endpoint first — whenever its trace is nonempty the first action is the
check-compression GET — and when that query reports `"processing"` it
performs no download-URL fetch and no download click, ending in the
still-processing notice, which is neither the downloaded outcome nor
one of the failure outcomes. -/
theorem download_checks_completion_first (name : String) (dl : Bool)
    (env : DownloadEnv) :
    ((downloadCompressedVideo name dl env).1 = [] ∨
      ∃ rest, (downloadCompressedVideo name dl env).1 =
        DownloadAction.checkCompression name :: rest) ∧
    (name ≠ "" → dl = false → env.checkOk = true →
      env.checkStatus = "processing" →
      downloadCompressedVideo name dl env =
        ([DownloadAction.checkCompression name], .stillProcessing)) ∧
    (DownloadOutcome.stillProcessing ≠ .downloaded ∧
     DownloadOutcome.stillProcessing ≠ .checkFailed ∧
     DownloadOutcome.stillProcessing ≠ .urlFetchFailed) := by
  refine ⟨?_, ?_, by decide, by decide, by decide⟩
  · unfold downloadCompressedVideo
    by_cases hg : name = "" ∨ dl = true
    · left
      rw [if_pos hg]
    · rw [if_neg hg]
      right
      by_cases hc : env.checkOk = true
      · by_cases hs : env.checkStatus = "processing"
        · exact ⟨[], by simp [hc, hs]⟩
        · by_cases hu : env.urlOk = true
          · exact ⟨[DownloadAction.fetchDownloadUrl name,
              DownloadAction.clickDownload env.downloadUrl name],
              by simp [hc, hs, hu]⟩
          · exact ⟨[DownloadAction.fetchDownloadUrl name],
              by simp [hc, hs, hu]⟩
      · exact ⟨[], by simp [hc]⟩
  · intro hname hdl hc hs
    simp [downloadCompressedVideo, hname, hdl, hc, hs]

/-- Witness for the download-status claim: with the status endpoint
reporting `"processing"`, the run stops after the single status check. -/
theorem download_checks_completion_first_witness :
    downloadCompressedVideo "out.mp4" false ⟨true, "processing", true, "u"⟩ =
      ([DownloadAction.checkCompression "out.mp4"], .stillProcessing) :=
  (download_checks_completion_first "out.mp4" false
    ⟨true, "processing", true, "u"⟩).2.1 (by decide) rfl rfl rfl

/-- Claim C9: `isTokenExpired` is total (a Lean function, mirroring the
JS try/catch) and fail-closed: null/undefined tokens and the falsy
empty string yield `true`, an undecodable payload yields `true`, and a
decoded payload with an `exp` field (seconds) yields `true` exactly
when the current time in milliseconds is at or past `exp * 1000`. -/
theorem isTokenExpired_fail_closed
    (decode : String → Option (Option Int)) (now : Int) :
    isTokenExpired decode now none = true ∧
    isTokenExpired decode now (some "") = true ∧
    (∀ t, t ≠ "" → decode t = none →
      isTokenExpired decode now (some t) = true) ∧
    (∀ t e, t ≠ "" → decode t = some (some e) →
      (isTokenExpired decode now (some t) = true ↔ e * 1000 ≤ now)) := by
  refine ⟨rfl, rfl, ?_, ?_⟩
  · intro t hne hdec
    simp [isTokenExpired, hne, hdec]
  · intro t e hne hdec
    simp [isTokenExpired, hne, hdec]

/-- Witness for the token-expiry claim: a malformed token is treated as
expired, and a token with `exp = 5` is expired at `now = 6000` ms. -/
theorem isTokenExpired_fail_closed_witness :
    isTokenExpired (fun _ => none) 0 (some "bad") = true ∧
    (isTokenExpired (fun _ => some (some 5)) 6000 (some "tok") = true ↔
      (5 : Int) * 1000 ≤ 6000) :=
  ⟨(isTokenExpired_fail_closed (fun _ => none) 0).2.2.1 "bad" (by decide) rfl,
   (isTokenExpired_fail_closed (fun _ => some (some 5)) 6000).2.2.2 "tok" 5
     (by decide) rfl⟩

/-- Claim C10: `estimateCompressedSize size crf` equals
`size * (1 - 0.1285) ^ (crf - 18)`, is the identity at the base CRF 18,
and for every fixed non-negative size is non-increasing as the CRF
increases. -/
theorem estimateCompressedSize_spec :
    (∀ s : ℚ, ∀ c : ℤ,
      estimateCompressedSize s c = s * (1 - 0.1285 : ℚ) ^ (c - 18)) ∧
    (∀ s : ℚ, estimateCompressedSize s 18 = s) ∧
    (∀ s : ℚ, 0 ≤ s → ∀ c1 c2 : ℤ, c1 ≤ c2 →
      estimateCompressedSize s c2 ≤ estimateCompressedSize s c1) := by
  refine ⟨?_, ?_, ?_⟩
  · intro s c
    unfold estimateCompressedSize compressionRate baseCrf
    norm_num
  · intro s
    unfold estimateCompressedSize baseCrf
    simp
  · intro s hs c1 c2 h12
    unfold estimateCompressedSize
    apply mul_le_mul_of_nonneg_left _ hs
    apply zpow_le_zpow_right_of_le_one₀
    · norm_num [compressionRate]
    · norm_num [compressionRate]
    · exact sub_le_sub_right h12 _

/-- Witness for the size-estimate claim: identity at CRF 18 and
monotone decrease from CRF 18 to CRF 28 at size 100. -/
theorem estimateCompressedSize_spec_witness :
    (0 : ℚ) ≤ 100 ∧ (18 : ℤ) ≤ 28 ∧
    estimateCompressedSize 100 28 ≤ estimateCompressedSize 100 18 ∧
    estimateCompressedSize 100 18 = 100 :=
  ⟨by norm_num, by norm_num,
   estimateCompressedSize_spec.2.2 100 (by norm_num) 18 28 (by norm_num),
   estimateCompressedSize_spec.2.1 100⟩

end CompShare
